import Mathlib

/-!
Verification of the FashionBench scoring-metric library (`scoring/metrics.py`).

Python strings are modelled as Lean `String`, Python floats as `ℚ` (all the
arithmetic in the module is rational: sums, counts and divisions of them),
Python dicts as association lists `List (String × ℚ)` with distinct keys,
and the records consumed by `calculate_accuracy` as `Option ℚ` (the optional
`score` field; other fields are irrelevant to the function).
-/

namespace FashionBench

/-- Python `str.lower()`: character-wise lowercasing. -/
def pyLower (s : String) : String := String.mk (s.toList.map Char.toLower)

/-- Python `str.strip()`: drop whitespace from both ends. -/
def pyStrip (s : String) : String :=
  String.mk (((s.toList.dropWhile Char.isWhitespace).reverse.dropWhile
    Char.isWhitespace).reverse)

/-- Does the first list start with the second list? -/
def startsWith2 : List Char → List Char → Bool
  | [], _ => true
  | _ :: _, [] => false
  | a :: as, b :: bs => a == b && startsWith2 as bs

/-- Python `needle in hay` on char lists: contiguous-substring test. -/
def containsSub (n : List Char) : List Char → Bool
  | [] => n.isEmpty
  | c :: hs => startsWith2 n (c :: hs) || containsSub n hs

/-- Python `needle in hay` for strings. -/
def containsSubS (needle hay : String) : Bool := containsSub needle.toList hay.toList

/-- Is `c` matched by the regex class `\w` (word character)? -/
def isWordChar (c : Char) : Bool := c.isAlphanum || c == '_'

/-- Accumulating pass splitting a char list into maximal word-character runs.
The second argument holds the current run, reversed. -/
def wordRunsAux : List Char → List Char → List (List Char)
  | [], cur => if cur.isEmpty then [] else [cur.reverse]
  | c :: cs, cur =>
    if isWordChar c then wordRunsAux cs (c :: cur)
    else if cur.isEmpty then wordRunsAux cs []
    else cur.reverse :: wordRunsAux cs []

/-- Python `re.findall(r'\w+', s)`: the maximal word-character runs of `s`. -/
def findWords (s : String) : List String :=
  (wordRunsAux s.toList []).map fun l => String.mk l

/-- `set(re.findall(r'\w+', s.lower()))`: the lowercase token set of a string. -/
def tokensOf (s : String) : Finset String := (findWords (pyLower s)).toFinset

/-- `item.lower().strip()`, the per-item normalisation of `list_overlap_score`. -/
def normItem (s : String) : String := pyStrip (pyLower s)

/-- `set(item.lower().strip() for item in l)`. -/
def itemSet (l : List String) : Finset String := (l.map normItem).toFinset

/-- `dict.get(k, default)` on an association list: value of the first entry
with key `k`, or the default when no entry has that key. -/
def dictGet (d : List (String × ℚ)) (k : String) (default : ℚ) : ℚ :=
  ((d.find? fun kv => kv.1 == k).map Prod.snd).getD default

/-- `metrics.exact_match`: 1.0 on a trimmed case-insensitive match of two
non-empty strings, 0.0 otherwise. -/
def exact_match (predicted expected : String) : ℚ :=
  if predicted = "" ∨ expected = "" then 0
  else if pyLower (pyStrip predicted) = pyLower (pyStrip expected) then 1 else 0

/-- `metrics.partial_match`: mean of Jaccard similarity and recall of the
lowercase token sets.  The `threshold` argument is accepted but never used,
exactly as in the source. -/
def partial_match (predicted expected : String) (threshold : ℚ) : ℚ :=
  if predicted = "" ∨ expected = "" then 0
  else
    let predicted_words := tokensOf predicted
    let expected_words := tokensOf expected
    if expected_words = ∅ then 0
    else
      let inter := predicted_words ∩ expected_words
      let uni := predicted_words ∪ expected_words
      let jaccard : ℚ := if uni ≠ ∅ then (inter.card : ℚ) / uni.card else 0
      let recallQ : ℚ := (inter.card : ℚ) / expected_words.card
      (jaccard + recallQ) / 2

/-- The static `fashion_synonyms` table, in source order. -/
def fashion_synonyms : List (String × List String) :=
  [ ("luxury", ["high-end", "premium", "upscale", "designer"]),
    ("casual", ["relaxed", "laid-back", "comfortable", "easy"]),
    ("elegant", ["sophisticated", "refined", "polished", "chic"]),
    ("trendy", ["fashionable", "stylish", "on-trend", "contemporary"]),
    ("vintage", ["retro", "classic", "throwback", "timeless"]),
    ("minimalist", ["simple", "clean", "understated", "minimal"]),
    ("bohemian", ["boho", "hippie", "free-spirited", "eclectic"]),
    ("streetwear", ["urban", "street-style", "casual-cool"]),
    ("athleisure", ["sporty", "athletic", "activewear"]),
    ("sustainable", ["eco-friendly", "ethical", "conscious", "green"]) ]

/-- The inner loop of `fashion_similarity` for one expected word `w`: some
synonym group contains `w` (as the key or a listed synonym) and some phrase
of that group (key included) occurs as a substring of the lowered predicted
text.  The source's `break` makes the count per word 0 or 1, so the loop
realises exactly this existential. -/
def synHit (predicted_lower : String) (w : String) : Bool :=
  fashion_synonyms.any fun g =>
    (w == g.1 || g.2.contains w) &&
      (g.1 :: g.2).any fun syn => containsSubS syn predicted_lower

/-- `metrics.fashion_similarity`: exact match 1.0, substring containment 0.9,
otherwise a 0.7/0.3 blend of direct token overlap and synonym credit capped
at 1.0.  The `for exp_word in expected_words` loop counts the set elements
satisfying `synHit` (skipping direct overlap), i.e. a filtered cardinality. -/
def fashion_similarity (predicted expected : String) : ℚ :=
  if predicted = "" ∨ expected = "" then 0
  else
    let predicted_lower := pyLower predicted
    let expected_lower := pyLower expected
    if predicted_lower = expected_lower then 1
    else if containsSubS expected_lower predicted_lower ||
        containsSubS predicted_lower expected_lower then 9 / 10
    else
      let predicted_words := tokensOf predicted
      let expected_words := tokensOf expected
      let direct_overlap := predicted_words ∩ expected_words
      let base_score : ℚ :=
        if expected_words ≠ ∅ then (direct_overlap.card : ℚ) / expected_words.card
        else 0
      let synonym_matches :=
        (expected_words.filter fun w =>
          w ∉ predicted_words ∧ synHit predicted_lower w).card
      let expected_word_count := expected_words.card
      let synonym_score : ℚ :=
        if 0 < expected_word_count then (synonym_matches : ℚ) / expected_word_count
        else 0
      let final_score := base_score * (7 / 10) + synonym_score * (3 / 10)
      min final_score 1

/-- `metrics.list_overlap_score`: F1 of the normalised item sets. -/
def list_overlap_score (predicted expected : List String) : ℚ :=
  if expected.isEmpty then 0
  else if predicted.isEmpty then 0
  else
    let predicted_set := itemSet predicted
    let expected_set := itemSet expected
    let inter := predicted_set ∩ expected_set
    let precision : ℚ :=
      if predicted_set ≠ ∅ then (inter.card : ℚ) / predicted_set.card else 0
    let recallQ : ℚ :=
      if expected_set ≠ ∅ then (inter.card : ℚ) / expected_set.card else 0
    if precision + recallQ = 0 then 0
    else 2 * (precision * recallQ) / (precision + recallQ)

/-- The dictionary `calculate_accuracy` returns. -/
structure AccuracyResult where
  total : Nat
  passed : Nat
  accuracy : ℚ
  avg_score : ℚ
deriving DecidableEq, Repr

/-- `metrics.calculate_accuracy`: aggregate pass/fail statistics; each record
is its optional `score` field, `r.get("score", 0)` is `Option.getD r 0`. -/
def calculate_accuracy (results : List (Option ℚ)) (threshold : ℚ) : AccuracyResult :=
  if results.isEmpty then ⟨0, 0, 0, 0⟩
  else
    let total := results.length
    let passed := (results.filter fun r => threshold ≤ r.getD 0).length
    let avg_score := (results.map fun r => r.getD 0).sum / total
    ⟨total, passed, (passed : ℚ) / total, avg_score⟩

/-- `metrics.weighted_score`: weighted average of a score dict, an absent
weight defaulting to 1.0; `weights = none` is Python's `weights = None`. -/
def weighted_score (scores : List (String × ℚ))
    (weights : Option (List (String × ℚ))) : ℚ :=
  if scores.isEmpty then 0
  else
    let w := weights.getD (scores.map fun kv => (kv.1, (1 : ℚ)))
    let total_weight := (w.map Prod.snd).sum
    if total_weight = 0 then 0
    else
      let weighted_sum := (scores.map fun kv => kv.2 * dictGet w kv.1 1).sum
      weighted_sum / total_weight

/-! ### Helper lemmas -/

lemma card_div_nonneg (A B : Finset String) : 0 ≤ (A.card : ℚ) / B.card :=
  div_nonneg (by positivity) (by positivity)

lemma card_div_le_one (A B : Finset String) (hAB : A ⊆ B) (hB : B ≠ ∅) :
    (A.card : ℚ) / B.card ≤ 1 := by
  have hB' : 0 < B.card := Finset.card_pos.mpr (Finset.nonempty_iff_ne_empty.mpr hB)
  rw [div_le_one (by exact_mod_cast hB')]
  exact_mod_cast Finset.card_le_card hAB

lemma exact_match_bounds (p e : String) :
    0 ≤ exact_match p e ∧ exact_match p e ≤ 1 := by
  unfold exact_match
  split_ifs <;> norm_num

lemma partial_match_bounds (p e : String) (t : ℚ) :
    0 ≤ partial_match p e t ∧ partial_match p e t ≤ 1 := by
  unfold partial_match
  dsimp only
  split_ifs with h1 h2 h3
  · norm_num
  · norm_num
  · have hj0 : (0 : ℚ) ≤ ((tokensOf p ∩ tokensOf e).card : ℚ) /
        ((tokensOf p ∪ tokensOf e).card : ℚ) := card_div_nonneg _ _
    have hj1 : ((tokensOf p ∩ tokensOf e).card : ℚ) /
        ((tokensOf p ∪ tokensOf e).card : ℚ) ≤ 1 :=
      card_div_le_one _ _ (Finset.inter_subset_union) h3
    have hr0 : (0 : ℚ) ≤ ((tokensOf p ∩ tokensOf e).card : ℚ) /
        ((tokensOf e).card : ℚ) := card_div_nonneg _ _
    have hr1 : ((tokensOf p ∩ tokensOf e).card : ℚ) / ((tokensOf e).card : ℚ) ≤ 1 :=
      card_div_le_one _ _ Finset.inter_subset_right h2
    constructor <;> linarith
  · have hr0 : (0 : ℚ) ≤ ((tokensOf p ∩ tokensOf e).card : ℚ) /
        ((tokensOf e).card : ℚ) := card_div_nonneg _ _
    have hr1 : ((tokensOf p ∩ tokensOf e).card : ℚ) / ((tokensOf e).card : ℚ) ≤ 1 :=
      card_div_le_one _ _ Finset.inter_subset_right h2
    constructor <;> linarith

lemma fashion_similarity_bounds (p e : String) :
    0 ≤ fashion_similarity p e ∧ fashion_similarity p e ≤ 1 := by
  unfold fashion_similarity
  dsimp only
  split_ifs <;>
    first
    | (norm_num; done)
    | exact ⟨le_min (by positivity) (by norm_num), min_le_right _ _⟩

lemma f1_aux (P R : ℚ) (hP0 : 0 ≤ P) (hP1 : P ≤ 1) (hR0 : 0 ≤ R) (hR1 : R ≤ 1)
    (hne : P + R ≠ 0) : 0 ≤ 2 * (P * R) / (P + R) ∧ 2 * (P * R) / (P + R) ≤ 1 := by
  have hpos : 0 < P + R := lt_of_le_of_ne (by linarith) (Ne.symm hne)
  constructor
  · exact div_nonneg (by nlinarith) (le_of_lt hpos)
  · rw [div_le_one hpos]
    nlinarith [mul_nonneg (sub_nonneg.mpr hP1) hR0, mul_nonneg (sub_nonneg.mpr hR1) hP0]

lemma f1_eq_one (P R : ℚ) (hP0 : 0 ≤ P) (hP1 : P ≤ 1) (hR0 : 0 ≤ R) (hR1 : R ≤ 1)
    (hz : P + R ≠ 0) (h : 2 * (P * R) / (P + R) = 1) : P = 1 ∧ R = 1 := by
  have hsum : 2 * (P * R) = P + R := (div_eq_one_iff_eq hz).mp h
  have hx : (1 - P) * R + (1 - R) * P = 0 := by ring_nf; linarith [hsum]
  have hy : 0 ≤ (1 - P) * R := mul_nonneg (by linarith) hR0
  have hy2 : 0 ≤ (1 - R) * P := mul_nonneg (by linarith) hP0
  have ht1 : (1 - P) * R = 0 := by linarith
  have ht2 : (1 - R) * P = 0 := by linarith
  rcases mul_eq_zero.mp ht1 with hc1 | hc1 <;> rcases mul_eq_zero.mp ht2 with hc2 | hc2
  · constructor <;> linarith
  · constructor <;> linarith
  · constructor <;> linarith
  · exact absurd (by linarith : P + R = 0) hz

lemma list_overlap_score_bounds (lp le : List String) :
    0 ≤ list_overlap_score lp le ∧ list_overlap_score lp le ≤ 1 := by
  unfold list_overlap_score
  dsimp only
  split_ifs <;>
    first
    | (norm_num; done)
    | exact f1_aux _ _ (card_div_nonneg _ _)
        (card_div_le_one _ _ Finset.inter_subset_left (by assumption))
        (card_div_nonneg _ _)
        (card_div_le_one _ _ Finset.inter_subset_right (by assumption))
        (by assumption)

lemma calculate_accuracy_bounds (results : List (Option ℚ)) (t : ℚ)
    (h : ∀ r ∈ results, ∀ q, r = some q → 0 ≤ q ∧ q ≤ 1) :
    (0 ≤ (calculate_accuracy results t).accuracy ∧
      (calculate_accuracy results t).accuracy ≤ 1) ∧
    (0 ≤ (calculate_accuracy results t).avg_score ∧
      (calculate_accuracy results t).avg_score ≤ 1) := by
  unfold calculate_accuracy
  dsimp only
  split_ifs with hE
  · norm_num
  · have hlen : 0 < results.length := by
      cases results with
      | nil => simp at hE
      | cons a l => simp
    have hlenQ : (0 : ℚ) < results.length := by exact_mod_cast hlen
    have hget : ∀ r ∈ results, 0 ≤ r.getD 0 ∧ r.getD 0 ≤ 1 := by
      intro r hr
      cases r with
      | none => norm_num
      | some q => simpa using h _ hr q rfl
    constructor
    · constructor
      · exact div_nonneg (by positivity) (le_of_lt hlenQ)
      · rw [div_le_one hlenQ]
        exact_mod_cast List.length_filter_le _ results
    · constructor
      · refine div_nonneg (List.sum_nonneg ?_) (le_of_lt hlenQ)
        intro x hx
        obtain ⟨r, hr, rfl⟩ := List.mem_map.mp hx
        exact (hget r hr).1
      · rw [div_le_one hlenQ]
        have hb : (results.map fun r => r.getD 0).sum ≤
            (results.map fun r => r.getD 0).length • (1 : ℚ) :=
          List.sum_le_card_nsmul _ 1 (by
            intro x hx
            obtain ⟨r, hr, rfl⟩ := List.mem_map.mp hx
            exact (hget r hr).2)
        simpa [nsmul_eq_mul] using hb

lemma find?_key_mem (d : List (String × ℚ)) (k : String)
    (hk : k ∈ d.map Prod.fst) :
    ∃ v, (d.find? fun kv => kv.1 == k) = some (k, v) ∧ (k, v) ∈ d := by
  obtain ⟨kv, hmem, hfst⟩ := List.mem_map.mp hk
  have hsome : (d.find? fun kv => kv.1 == k).isSome := by
    rw [List.find?_isSome]
    exact ⟨kv, hmem, by simp [hfst]⟩
  obtain ⟨e, he⟩ := Option.isSome_iff_exists.mp hsome
  obtain ⟨e1, e2⟩ := e
  have hek : e1 = k := by simpa using List.find?_some he
  subst hek
  exact ⟨e2, he, List.mem_of_find?_eq_some he⟩

lemma dictGet_eq_of_find? (d : List (String × ℚ)) (k : String) (v dflt : ℚ)
    (h : (d.find? fun kv => kv.1 == k) = some (k, v)) : dictGet d k dflt = v := by
  simp [dictGet, h]

lemma dictGet_nonneg (d : List (String × ℚ)) (k : String) (dflt : ℚ)
    (hd : ∀ kv ∈ d, 0 ≤ kv.2) (hdflt : 0 ≤ dflt) : 0 ≤ dictGet d k dflt := by
  unfold dictGet
  rcases h : d.find? fun kv => kv.1 == k with _ | kv
  · simpa [h] using hdflt
  · simpa [h] using hd kv (List.mem_of_find?_eq_some h)

lemma sum_map_eq_sum_keys (f : String × ℚ → ℚ) :
    ∀ l : List (String × ℚ), (l.map Prod.fst).Nodup →
      (l.map f).sum = ∑ k in (l.map Prod.fst).toFinset, f (k, dictGet l k 0)
  | [], _ => by simp
  | kv :: tl, hnd => by
    rw [List.map_cons] at hnd
    obtain ⟨hhd, htl⟩ := List.nodup_cons.mp hnd
    have hins : kv.1 ∉ (tl.map Prod.fst).toFinset := by simpa using hhd
    simp only [List.map_cons, List.sum_cons, List.toFinset_cons]
    rw [Finset.sum_insert hins]
    have h1 : dictGet (kv :: tl) kv.1 0 = kv.2 := by
      simp [dictGet, List.find?_cons_of_pos]
    have h2 : ∀ k ∈ (tl.map Prod.fst).toFinset,
        f (k, dictGet (kv :: tl) k 0) = f (k, dictGet tl k 0) := by
      intro k hkmem
      have hkne : kv.1 ≠ k := by
        intro hcontra
        exact hhd (by simpa [hcontra] using hkmem)
      have : dictGet (kv :: tl) k 0 = dictGet tl k 0 := by
        unfold dictGet
        rw [List.find?_cons_of_neg]
        simpa using hkne
      rw [this]
    rw [Finset.sum_congr rfl h2, h1, ← sum_map_eq_sum_keys f tl htl]

lemma dictGet_map_one (l : List (String × ℚ)) (k : String) :
    dictGet (l.map fun kv => (kv.1, (1 : ℚ))) k 1 = 1 := by
  unfold dictGet
  rcases h : (l.map fun kv => (kv.1, (1 : ℚ))).find? fun kv => kv.1 == k with _ | e
  · rw [h]
    simp
  · obtain ⟨kv, _, hkv⟩ := List.mem_map.mp (List.mem_of_find?_eq_some h)
    rw [h]
    simp [← hkv]

lemma sum_snd_map_one :
    ∀ l : List (String × ℚ),
      ((l.map fun kv => (kv.1, (1 : ℚ))).map Prod.snd).sum = (l.length : ℚ)
  | [] => by simp
  | kv :: tl => by
    simp only [List.map_cons, List.sum_cons, List.length_cons, sum_snd_map_one tl]
    push_cast
    ring

lemma weighted_sum_le_total (scores w : List (String × ℚ))
    (hs : ∀ kv ∈ scores, 0 ≤ kv.2 ∧ kv.2 ≤ 1)
    (hnds : (scores.map Prod.fst).Nodup)
    (hw0 : ∀ kv ∈ w, 0 ≤ kv.2)
    (hwnd : (w.map Prod.fst).Nodup)
    (hcov : ∀ k ∈ scores.map Prod.fst, k ∈ w.map Prod.fst) :
    (scores.map fun kv => kv.2 * dictGet w kv.1 1).sum ≤ (w.map Prod.snd).sum := by
  have step1 : (scores.map fun kv => kv.2 * dictGet w kv.1 1).sum ≤
      (scores.map fun kv => dictGet w kv.1 1).sum := by
    apply List.sum_le_sum
    intro kv hkv
    exact mul_le_of_le_one_left (dictGet_nonneg _ _ _ hw0 zero_le_one) (hs kv hkv).2
  have step2 : (scores.map fun kv => dictGet w kv.1 1).sum =
      ∑ k in (scores.map Prod.fst).toFinset, dictGet w k 1 :=
    sum_map_eq_sum_keys (fun kv => dictGet w kv.1 1) scores hnds
  have step3 : ∑ k in (scores.map Prod.fst).toFinset, dictGet w k 1 ≤
      ∑ k in (w.map Prod.fst).toFinset, dictGet w k 1 := by
    apply Finset.sum_le_sum_of_subset_of_nonneg
    · intro k hk
      exact List.mem_toFinset.mpr (hcov k (List.mem_toFinset.mp hk))
    · intro k _ _
      exact dictGet_nonneg _ _ _ hw0 zero_le_one
  have step4 : ∑ k in (w.map Prod.fst).toFinset, dictGet w k 1 =
      ∑ k in (w.map Prod.fst).toFinset, dictGet w k 0 := by
    apply Finset.sum_congr rfl
    intro k hk
    obtain ⟨v, hfind, _⟩ := find?_key_mem w k (List.mem_toFinset.mp hk)
    rw [dictGet_eq_of_find? _ _ _ _ hfind, dictGet_eq_of_find? _ _ _ _ hfind]
  have step5 : (w.map Prod.snd).sum =
      ∑ k in (w.map Prod.fst).toFinset, dictGet w k 0 := by
    have := sum_map_eq_sum_keys Prod.snd w hwnd
    simpa using this
  rw [step2] at step1
  rw [step5]
  rw [step4] at step3
  exact le_trans step1 step3

lemma weighted_score_bounds (scores : List (String × ℚ))
    (weights : Option (List (String × ℚ)))
    (hs : ∀ kv ∈ scores, 0 ≤ kv.2 ∧ kv.2 ≤ 1)
    (hnds : (scores.map Prod.fst).Nodup)
    (hw : ∀ w, weights = some w → (∀ kv ∈ w, 0 ≤ kv.2) ∧
      (w.map Prod.fst).Nodup ∧ ∀ k ∈ scores.map Prod.fst, k ∈ w.map Prod.fst) :
    0 ≤ weighted_score scores weights ∧ weighted_score scores weights ≤ 1 := by
  unfold weighted_score
  dsimp only
  split_ifs with hE hT
  · norm_num
  · norm_num
  · cases weights with
    | none =>
      simp only [Option.getD] at hT ⊢
      have htot : ((scores.map fun kv => (kv.1, (1 : ℚ))).map Prod.snd).sum =
          (scores.length : ℚ) := sum_snd_map_one scores
      have hlen : 0 < scores.length := by
        cases scores with
        | nil => simp at hE
        | cons a l => simp
      have hlenQ : (0 : ℚ) < scores.length := by exact_mod_cast hlen
      have hws : (scores.map fun kv =>
          kv.2 * dictGet (scores.map fun kv => (kv.1, (1 : ℚ))) kv.1 1) =
          scores.map fun kv => kv.2 := by
        apply List.map_congr_left
        intro kv _
        rw [dictGet_map_one]
        ring
      rw [htot, hws]
      constructor
      · apply div_nonneg _ (le_of_lt hlenQ)
        exact List.sum_nonneg fun x hx => by
          obtain ⟨kv, hkv, rfl⟩ := List.mem_map.mp hx
          exact (hs kv hkv).1
      · rw [div_le_one hlenQ]
        have hb : (scores.map fun kv => kv.2).sum ≤
            (scores.map fun kv => kv.2).length • (1 : ℚ) :=
          List.sum_le_card_nsmul _ 1 (by
            intro x hx
            obtain ⟨kv, hkv, rfl⟩ := List.mem_map.mp hx
            exact (hs kv hkv).2)
        simpa [nsmul_eq_mul] using hb
    | some w =>
      obtain ⟨hw0, hwnd, hcov⟩ := hw w rfl
      simp only [Option.getD] at hT ⊢
      have htotnn : 0 ≤ (w.map Prod.snd).sum :=
        List.sum_nonneg fun x hx => by
          obtain ⟨kv, hkv, rfl⟩ := List.mem_map.mp hx
          exact hw0 kv hkv
      have htotpos : 0 < (w.map Prod.snd).sum := lt_of_le_of_ne htotnn (Ne.symm hT)
      constructor
      · apply div_nonneg _ htotnn
        exact List.sum_nonneg fun x hx => by
          obtain ⟨kv, hkv, rfl⟩ := List.mem_map.mp hx
          exact mul_nonneg (hs kv hkv).1 (dictGet_nonneg _ _ _ hw0 zero_le_one)
      · rw [div_le_one htotpos]
        exact weighted_sum_le_total scores w hs hnds hw0 hwnd hcov

lemma itemSet_ne_empty (l : List String) (h : l ≠ []) : itemSet l ≠ ∅ := by
  cases l with
  | nil => exact absurd rfl h
  | cons a tl =>
    intro hc
    have hmem : normItem a ∈ itemSet (a :: tl) := by simp [itemSet]
    rw [hc] at hmem
    simp at hmem

lemma startsWith2_refl : ∀ l : List Char, startsWith2 l l = true
  | [] => rfl
  | a :: as => by simp [startsWith2, startsWith2_refl as]

lemma containsSubS_refl (s : String) : containsSubS s s = true := by
  unfold containsSubS
  cases h : s.toList with
  | nil => simp [containsSub]
  | cons c cs => simp [containsSub, startsWith2_refl]

lemma synHit_iff (pl w : String) :
    synHit pl w = true ↔
      ∃ g ∈ fashion_synonyms, (w = g.1 ∨ w ∈ g.2) ∧
        ∃ s ∈ g.1 :: g.2, containsSubS s pl = true := by
  unfold synHit
  rw [List.any_eq_true]
  constructor
  · rintro ⟨g, hg, hcond⟩
    rw [Bool.and_eq_true] at hcond
    obtain ⟨hmemb, hany⟩ := hcond
    rw [Bool.or_eq_true] at hmemb
    refine ⟨g, hg, ?_, ?_⟩
    · rcases hmemb with hk | hl
      · exact Or.inl (by simpa using hk)
      · exact Or.inr (by simpa using hl)
    · rw [List.any_eq_true] at hany
      exact hany
  · rintro ⟨g, hg, hmemb, hany⟩
    refine ⟨g, hg, ?_⟩
    rw [Bool.and_eq_true]
    constructor
    · rw [Bool.or_eq_true]
      rcases hmemb with hk | hl
      · exact Or.inl (by simpa using hk)
      · exact Or.inr (by simpa using hl)
    · rw [List.any_eq_true]
      exact hany

lemma fashion_final_le (P E : Finset String) (pred : String → Prop)
    [DecidablePred pred] (hn : 0 < E.card) :
    ((P ∩ E).card : ℚ) / E.card * (7 / 10) +
      ((E.filter fun w => w ∉ P ∧ pred w).card : ℚ) / E.card * (3 / 10) ≤ 7 / 10 := by
  have hkn : (P ∩ E).card ≤ E.card := Finset.card_le_card Finset.inter_subset_right
  have hsub : (E.filter fun w => w ∉ P ∧ pred w) ⊆ E \ (P ∩ E) := by
    intro w hw
    rw [Finset.mem_filter] at hw
    rw [Finset.mem_sdiff]
    exact ⟨hw.1, fun hc => hw.2.1 (Finset.mem_inter.mp hc).1⟩
  have hmnk : (E.filter fun w => w ∉ P ∧ pred w).card ≤ E.card - (P ∩ E).card := by
    calc (E.filter fun w => w ∉ P ∧ pred w).card ≤ (E \ (P ∩ E)).card :=
          Finset.card_le_card hsub
      _ = E.card - (P ∩ E).card := Finset.card_sdiff Finset.inter_subset_right
  have hnQ : (0 : ℚ) < E.card := by exact_mod_cast hn
  have h1 : ((P ∩ E).card : ℚ) / E.card ≤ 1 := by
    rw [div_le_one hnQ]
    exact_mod_cast hkn
  have h2 : ((E.filter fun w => w ∉ P ∧ pred w).card : ℚ) / E.card ≤
      1 - ((P ∩ E).card : ℚ) / E.card := by
    have hc : ((E.filter fun w => w ∉ P ∧ pred w).card : ℚ) ≤
        (E.card : ℚ) - (P ∩ E).card := by
      have := (Nat.cast_le (α := ℚ)).mpr hmnk
      rwa [Nat.cast_sub hkn] at this
    rw [div_le_iff₀ hnQ]
    have hrhs : (1 - ((P ∩ E).card : ℚ) / E.card) * E.card =
        (E.card : ℚ) - (P ∩ E).card := by
      field_simp
    rw [hrhs]
    exact hc
  have h3 : (0 : ℚ) ≤ ((P ∩ E).card : ℚ) / E.card := by positivity
  have h4 : (0 : ℚ) ≤ ((E.filter fun w => w ∉ P ∧ pred w).card : ℚ) / E.card := by
    positivity
  linarith

/-! ### Claim theorems -/

/-- C5: the `threshold` parameter of `partial_match` has no effect on the
returned score: for all inputs and any two thresholds the results agree. -/
theorem claim5_threshold_no_effect (p e : String) (t1 t2 : ℚ) :
    partial_match p e t1 = partial_match p e t2 := rfl

/-- C7: `exact_match` returns 1.0 exactly when both strings are non-empty and
their trimmed lowercased forms agree, and 0.0 otherwise. -/
theorem claim7_exact_match_iff (p e : String) :
    exact_match p e =
      if p ≠ "" ∧ e ≠ "" ∧ pyLower (pyStrip p) = pyLower (pyStrip e) then 1 else 0 := by
  unfold exact_match
  split_ifs <;> first | rfl | tauto

/-- C4: `weighted_score` returns 0.0 on an empty score mapping or zero total
weight, and otherwise the weight-lookup-with-default-1.0 weighted sum divided
by the sum of the weight mapping values; with no weights mapping every score
name gets weight 1.0, giving the plain mean; and the worked example
`weighted_score {a:1, b:0} {a:3, b:1} = 0.75` holds. -/
theorem claim4_weighted_score_spec :
    (∀ ow : Option (List (String × ℚ)), weighted_score [] ow = 0) ∧
    (∀ (s w : List (String × ℚ)), (w.map Prod.snd).sum = 0 →
      weighted_score s (some w) = 0) ∧
    (∀ (s w : List (String × ℚ)), s ≠ [] → (w.map Prod.snd).sum ≠ 0 →
      weighted_score s (some w) =
        (s.map fun kv => kv.2 * dictGet w kv.1 1).sum / (w.map Prod.snd).sum) ∧
    (∀ s : List (String × ℚ), s ≠ [] →
      weighted_score s none = (s.map Prod.snd).sum / (s.length : ℚ)) ∧
    weighted_score [("a", 1), ("b", 0)] (some [("a", 3), ("b", 1)]) = 3 / 4 := by
  refine ⟨fun ow => by simp [weighted_score], ?_, ?_, ?_,
    by norm_num [weighted_score, dictGet, List.find?]⟩
  · intro s w hT
    unfold weighted_score
    dsimp only
    split_ifs with h1 h2
    · rfl
    · rfl
    · exact absurd hT h2
  · intro s w hs hT
    unfold weighted_score
    dsimp only
    simp only [Option.getD_some]
    rw [if_neg (by simpa using hs), if_neg hT]
  · intro s hs
    unfold weighted_score
    dsimp only
    simp only [Option.getD_none]
    rw [if_neg (by simpa using hs)]
    have htot : ((s.map fun kv => (kv.1, (1 : ℚ))).map Prod.snd).sum =
        (s.length : ℚ) := sum_snd_map_one s
    have hlen : s.length ≠ 0 := by simpa using hs
    have hlenQ : (s.length : ℚ) ≠ 0 := by exact_mod_cast hlen
    rw [htot, if_neg hlenQ]
    have hmap : (s.map fun kv => kv.2 * dictGet (s.map fun kv => (kv.1, (1 : ℚ))) kv.1 1) =
        s.map fun kv => kv.2 := by
      apply List.map_congr_left
      intro kv _
      rw [dictGet_map_one]
      ring
    rw [hmap]

/-- C4 witness: the general formula applied at a concrete nonzero dictionary,
and the plain-mean formula applied at a concrete scores list. -/
theorem claim4_weighted_score_spec_witness :
    weighted_score [("a", (1 : ℚ) / 2)] (some [("a", 2)]) = 1 / 2 ∧
    weighted_score [("a", (1 : ℚ)), ("b", 0)] none = 1 / 2 := by
  constructor
  · have h := claim4_weighted_score_spec.2.2.1 [("a", (1 : ℚ) / 2)] [("a", 2)]
      (by simp) (by norm_num)
    rw [h]
    norm_num [dictGet, List.find?]
  · have h := claim4_weighted_score_spec.2.2.2.1 [("a", (1 : ℚ)), ("b", 0)]
      (by simp)
    rw [h]
    norm_num

/-- C9: `calculate_accuracy` returns the all-zero structure on an empty list,
and otherwise the record count, the count of records whose defaulted score is
at least the threshold, their ratio, and the mean defaulted score; the worked
example at threshold 0.7 holds. -/
theorem claim9_calculate_accuracy_spec :
    (∀ t : ℚ, calculate_accuracy [] t = ⟨0, 0, 0, 0⟩) ∧
    (∀ (rs : List (Option ℚ)) (t : ℚ), rs ≠ [] →
      calculate_accuracy rs t =
        ⟨rs.length, (rs.filter fun r => t ≤ r.getD 0).length,
          ((rs.filter fun r => t ≤ r.getD 0).length : ℚ) / rs.length,
          (rs.map fun r => r.getD 0).sum / rs.length⟩) ∧
    calculate_accuracy [some (9 / 10), some (1 / 2)] (7 / 10) = ⟨2, 1, 1 / 2, 7 / 10⟩ := by
  refine ⟨fun t => rfl, ?_, by norm_num [calculate_accuracy, List.filter]⟩
  intro rs t hrs
  unfold calculate_accuracy
  dsimp only
  rw [if_neg (by simpa using hrs)]

/-- C9 witness: the non-empty formula applied at a concrete record list. -/
theorem claim9_calculate_accuracy_spec_witness :
    calculate_accuracy [some (1 : ℚ)] 0 = ⟨1, 1, 1, 1⟩ := by
  have h := claim9_calculate_accuracy_spec.2.1 [some (1 : ℚ)] 0 (by simp)
  rw [h]
  norm_num [List.filter]

/-- C6: on non-empty strings with a non-empty expected token set,
`partial_match` is the mean of the Jaccard similarity and the recall of the
lowercase word-character token sets. -/
theorem claim6_partial_match_formula (p e : String) (t : ℚ)
    (hp : p ≠ "") (he : e ≠ "") (hew : tokensOf e ≠ ∅) :
    partial_match p e t =
      (((tokensOf p ∩ tokensOf e).card : ℚ) / ((tokensOf p ∪ tokensOf e).card : ℚ) +
        ((tokensOf p ∩ tokensOf e).card : ℚ) / ((tokensOf e).card : ℚ)) / 2 := by
  have huni : tokensOf p ∪ tokensOf e ≠ ∅ := by
    intro hc
    exact hew (Finset.union_eq_empty.mp hc).2
  unfold partial_match
  dsimp only
  rw [if_neg (not_or.mpr ⟨hp, he⟩), if_neg hew, if_pos huni]

/-- C6 witness: the formula applied to the worked example from the spec,
`partial_match "red dress" "red dress blue shoes" = 0.5`. -/
theorem claim6_partial_match_formula_witness :
    partial_match "red dress" "red dress blue shoes" (1 / 2) = 1 / 2 := by
  have h := claim6_partial_match_formula "red dress" "red dress blue shoes" (1 / 2)
    (by decide) (by decide) (by decide)
  rw [h]
  rw [show (tokensOf "red dress" ∩ tokensOf "red dress blue shoes").card = 2 from rfl,
    show (tokensOf "red dress" ∪ tokensOf "red dress blue shoes").card = 4 from rfl,
    show (tokensOf "red dress blue shoes").card = 4 from rfl]
  norm_num

/-- C8: `list_overlap_score` returns 0.0 if either list is empty; on
non-empty lists it is the harmonic mean (F1) of precision and recall of the
normalised item sets, and 0.0 when precision + recall is 0. -/
theorem claim8_list_overlap_formula :
    (∀ lp le : List String, lp = [] ∨ le = [] → list_overlap_score lp le = 0) ∧
    (∀ lp le : List String, lp ≠ [] → le ≠ [] →
      list_overlap_score lp le =
        if ((itemSet lp ∩ itemSet le).card : ℚ) / ((itemSet lp).card : ℚ) +
            ((itemSet lp ∩ itemSet le).card : ℚ) / ((itemSet le).card : ℚ) = 0 then 0
        else
          2 * (((itemSet lp ∩ itemSet le).card : ℚ) / ((itemSet lp).card : ℚ) *
              (((itemSet lp ∩ itemSet le).card : ℚ) / ((itemSet le).card : ℚ))) /
            (((itemSet lp ∩ itemSet le).card : ℚ) / ((itemSet lp).card : ℚ) +
              ((itemSet lp ∩ itemSet le).card : ℚ) / ((itemSet le).card : ℚ))) := by
  constructor
  · intro lp le h
    rcases h with rfl | rfl <;> simp [list_overlap_score]
  · intro lp le hp he
    unfold list_overlap_score
    dsimp only
    rw [if_neg (by simpa using he), if_neg (by simpa using hp),
      if_pos (itemSet_ne_empty lp hp), if_pos (itemSet_ne_empty le he)]

/-- C8 witness: the empty guard applied at a concrete empty first list, and
the F1 formula applied to the worked example from the spec,
`list_overlap_score ["Zara","Nike"] ["nike","h&m"] = 0.5`. -/
theorem claim8_list_overlap_formula_witness :
    list_overlap_score [] ["a"] = 0 ∧
    list_overlap_score ["Zara", "Nike"] ["nike", "h&m"] = 1 / 2 := by
  constructor
  · exact claim8_list_overlap_formula.1 [] ["a"] (Or.inl rfl)
  · have h := claim8_list_overlap_formula.2 ["Zara", "Nike"] ["nike", "h&m"]
      (by decide) (by decide)
    rw [h]
    rw [show (itemSet ["Zara", "Nike"] ∩ itemSet ["nike", "h&m"]).card = 1 from rfl,
      show (itemSet ["Zara", "Nike"]).card = 2 from rfl,
      show (itemSet ["nike", "h&m"]).card = 2 from rfl]
    norm_num

/-- C3: full behaviour of `fashion_similarity` on non-empty strings — 1.0 on
an exact lowercase match, 0.9 on case-insensitive substring containment either
way, otherwise `min (0.7·base + 0.3·synonym, 1)` where base is the direct
token overlap over the expected token count and the synonym score counts
expected tokens outside the direct intersection whose synonym group has some
phrase occurring as a substring of the lowered predicted text; and 0.0 when
either input is empty. -/
theorem claim3_fashion_similarity_spec (p e : String) :
    (p = "" ∨ e = "" → fashion_similarity p e = 0) ∧
    (p ≠ "" → e ≠ "" → pyLower p = pyLower e → fashion_similarity p e = 1) ∧
    (p ≠ "" → e ≠ "" → pyLower p ≠ pyLower e →
      (containsSubS (pyLower e) (pyLower p) = true ∨
        containsSubS (pyLower p) (pyLower e) = true) →
      fashion_similarity p e = 9 / 10) ∧
    (p ≠ "" → e ≠ "" → pyLower p ≠ pyLower e →
      containsSubS (pyLower e) (pyLower p) = false →
      containsSubS (pyLower p) (pyLower e) = false →
      fashion_similarity p e =
        min ((if tokensOf e ≠ ∅ then
            ((tokensOf p ∩ tokensOf e).card : ℚ) / ((tokensOf e).card : ℚ)
          else 0) * (7 / 10) +
          (if 0 < (tokensOf e).card then
            (((tokensOf e).filter fun w => w ∉ tokensOf p ∧
              ∃ g ∈ fashion_synonyms, (w = g.1 ∨ w ∈ g.2) ∧
                ∃ s ∈ g.1 :: g.2, containsSubS s (pyLower p) = true).card : ℚ) /
              ((tokensOf e).card : ℚ)
          else 0) * (3 / 10)) 1) := by
  refine ⟨?_, ?_, ?_, ?_⟩
  · intro h
    unfold fashion_similarity
    rw [if_pos h]
  · intro hp he hl
    unfold fashion_similarity
    dsimp only
    rw [if_neg (not_or.mpr ⟨hp, he⟩), if_pos hl]
  · intro hp he hl hor
    unfold fashion_similarity
    dsimp only
    rw [if_neg (not_or.mpr ⟨hp, he⟩), if_neg hl,
      if_pos (by rcases hor with h | h <;> simp [h])]
  · intro hp he hl h1 h2
    unfold fashion_similarity
    dsimp only
    rw [if_neg (not_or.mpr ⟨hp, he⟩), if_neg hl, if_neg (by simp [h1, h2])]
    have hfil : ((tokensOf e).filter fun w => w ∉ tokensOf p ∧ synHit (pyLower p) w) =
        ((tokensOf e).filter fun w => w ∉ tokensOf p ∧
          ∃ g ∈ fashion_synonyms, (w = g.1 ∨ w ∈ g.2) ∧
            ∃ s ∈ g.1 :: g.2, containsSubS s (pyLower p) = true) := by
      apply Finset.filter_congr
      intro w _
      exact and_congr_right fun _ => synHit_iff (pyLower p) w
    rw [hfil]

/-- C3 witness: `fashion_similarity "premium bag" "luxury bag"` falls through
to the blended branch, earning synonym credit for "luxury" via "premium",
giving 0.7·(1/2) + 0.3·(1/2) = 0.5; and the empty guard fires on "". -/
theorem claim3_fashion_similarity_spec_witness :
    fashion_similarity "premium bag" "luxury bag" = 1 / 2 ∧
    fashion_similarity "" "style" = 0 := by
  constructor
  · have h := (claim3_fashion_similarity_spec "premium bag" "luxury bag").2.2.2
      (by decide) (by decide) (by decide) (by decide) (by decide)
    rw [h]
    rw [if_pos (by decide), if_pos (by decide)]
    rw [show (tokensOf "premium bag" ∩ tokensOf "luxury bag").card = 1 from rfl,
      show (tokensOf "luxury bag").card = 2 from rfl,
      show ((tokensOf "luxury bag").filter fun w => w ∉ tokensOf "premium bag" ∧
        ∃ g ∈ fashion_synonyms, (w = g.1 ∨ w ∈ g.2) ∧
          ∃ s ∈ g.1 :: g.2, containsSubS s (pyLower "premium bag") = true).card = 1
        from by decide]
    norm_num [min_def]
  · exact (claim3_fashion_similarity_spec "" "style").1 (Or.inl rfl)

/-- C10 counterexample: "!" and "?" are non-empty strings with equal (empty)
lowercase token sets, neither lowercased string a substring of the other, yet
`fashion_similarity` returns 0.0, not 0.7 — the claim omits that the common
token set must be non-empty. -/
theorem claim10_counterexample :
    ("!" : String) ≠ "" ∧ ("?" : String) ≠ "" ∧
    tokensOf "!" = tokensOf "?" ∧
    containsSubS (pyLower "?") (pyLower "!") = false ∧
    containsSubS (pyLower "!") (pyLower "?") = false ∧
    fashion_similarity "!" "?" = 0 ∧ fashion_similarity "!" "?" ≠ 7 / 10 := by
  have h0 : fashion_similarity "!" "?" = 0 := by
    unfold fashion_similarity
    rw [if_neg (by decide), if_neg (by decide), if_neg (by decide)]
    dsimp only
    rw [show tokensOf "!" = ∅ from rfl, show tokensOf "?" = ∅ from rfl]
    norm_num [min_def]
  exact ⟨by decide, by decide, by decide, by decide, by decide, h0,
    by rw [h0]; norm_num⟩

/-- C10 amended: on non-empty strings whose lowercase token sets are equal
and NON-EMPTY, with neither lowercased string a substring of the other,
`fashion_similarity` returns exactly 0.7. -/
theorem claim10_equal_token_sets (p e : String) (hp : p ≠ "") (he : e ≠ "")
    (hts : tokensOf p = tokensOf e) (htne : tokensOf e ≠ ∅)
    (hs1 : containsSubS (pyLower e) (pyLower p) = false)
    (hs2 : containsSubS (pyLower p) (pyLower e) = false) :
    fashion_similarity p e = 7 / 10 := by
  have hlow : pyLower p ≠ pyLower e := by
    intro hc
    rw [hc] at hs1
    rw [containsSubS_refl (pyLower e)] at hs1
    simp at hs1
  unfold fashion_similarity
  dsimp only
  rw [if_neg (not_or.mpr ⟨hp, he⟩), if_neg hlow, if_neg (by simp [hs1, hs2])]
  rw [hts]
  have hcard : 0 < (tokensOf e).card :=
    Finset.card_pos.mpr (Finset.nonempty_iff_ne_empty.mpr htne)
  have hfilter : ((tokensOf e).filter fun w =>
      w ∉ tokensOf e ∧ synHit (pyLower p) w) = ∅ :=
    Finset.filter_eq_empty_iff.mpr fun _ hx hc => hc.1 hx
  rw [Finset.inter_self, hfilter, if_pos htne, if_pos hcard]
  have hne : ((tokensOf e).card : ℚ) ≠ 0 := by
    exact_mod_cast Nat.pos_iff_ne_zero.mp hcard
  rw [div_self hne, Finset.card_empty]
  norm_num [min_def]

/-- C10 witness: "dress red" versus "red dress" — equal token sets, no
substring containment, score exactly 0.7. -/
theorem claim10_equal_token_sets_witness :
    fashion_similarity "dress red" "red dress" = 7 / 10 :=
  claim10_equal_token_sets "dress red" "red dress" (by decide) (by decide)
    (by decide) (by decide) (by decide) (by decide)

/-- C2 counterexample: `partial_match "dress red" "red dress"` returns exactly
1.0 although the two strings are not a normalized (trimmed, lowercased) exact
match — token-set equality suffices, refuting the "only on a normalized exact
match" direction of the claim. -/
theorem claim2_counterexample :
    partial_match "dress red" "red dress" (1 / 2) = 1 ∧
    pyLower (pyStrip "dress red") ≠ pyLower (pyStrip "red dress") ∧
    pyStrip (pyLower "dress red") ≠ pyStrip (pyLower "red dress") := by
  refine ⟨?_, by decide, by decide⟩
  unfold partial_match
  dsimp only
  rw [if_neg (by decide), if_neg (by decide), if_pos (by decide)]
  rw [show (tokensOf "dress red" ∩ tokensOf "red dress").card = 2 from rfl,
    show (tokensOf "dress red" ∪ tokensOf "red dress").card = 2 from rfl,
    show (tokensOf "red dress").card = 2 from rfl]
  norm_num

/-- C2 amended: every scoring function returns exactly 0.0 when either input
is empty; `exact_match` and `fashion_similarity` return 1.0 only on a
normalized exact match; `partial_match` returns 1.0 only when the lowercase
token sets coincide (and are non-empty), and `list_overlap_score` only when
the normalised item sets coincide (and are non-empty). -/
theorem claim2_return_value_invariants :
    (∀ (p e : String) (t : ℚ), p = "" ∨ e = "" →
      exact_match p e = 0 ∧ partial_match p e t = 0 ∧ fashion_similarity p e = 0) ∧
    (∀ lp le : List String, lp = [] ∨ le = [] → list_overlap_score lp le = 0) ∧
    (∀ p e : String, exact_match p e = 1 →
      p ≠ "" ∧ e ≠ "" ∧ pyLower (pyStrip p) = pyLower (pyStrip e)) ∧
    (∀ p e : String, fashion_similarity p e = 1 →
      p ≠ "" ∧ e ≠ "" ∧ pyStrip (pyLower p) = pyStrip (pyLower e)) ∧
    (∀ (p e : String) (t : ℚ), partial_match p e t = 1 →
      tokensOf p = tokensOf e ∧ tokensOf e ≠ ∅) ∧
    (∀ lp le : List String, list_overlap_score lp le = 1 →
      itemSet lp = itemSet le ∧ itemSet le ≠ ∅) := by
  refine ⟨?_, ?_, ?_, ?_, ?_, ?_⟩
  · intro p e t h
    refine ⟨?_, ?_, ?_⟩ <;> · first
      | (unfold exact_match; rw [if_pos h])
      | (unfold partial_match; rw [if_pos h])
      | (unfold fashion_similarity; rw [if_pos h])
  · intro lp le h
    rcases h with rfl | rfl <;> simp [list_overlap_score]
  · intro p e h
    unfold exact_match at h
    split_ifs at h with h1 h2
    · exact absurd h (by norm_num)
    · exact ⟨fun hc => h1 (Or.inl hc), fun hc => h1 (Or.inr hc), h2⟩
    · exact absurd h (by norm_num)
  · intro p e h
    unfold fashion_similarity at h
    dsimp only at h
    by_cases hg : p = "" ∨ e = ""
    · rw [if_pos hg] at h
      exact absurd h (by norm_num)
    · rw [if_neg hg] at h
      push_neg at hg
      by_cases heq : pyLower p = pyLower e
      · exact ⟨hg.1, hg.2, congrArg pyStrip heq⟩
      · rw [if_neg heq] at h
        by_cases hsub : (containsSubS (pyLower e) (pyLower p) ||
            containsSubS (pyLower p) (pyLower e)) = true
        · rw [if_pos hsub] at h
          exact absurd h (by norm_num)
        · rw [if_neg hsub] at h
          exfalso
          by_cases hE : tokensOf e = ∅
          · rw [if_neg (fun hc => hc hE), if_neg (by simp [hE])] at h
            norm_num [min_def] at h
          · have hcard : 0 < (tokensOf e).card :=
              Finset.card_pos.mpr (Finset.nonempty_iff_ne_empty.mpr hE)
            rw [if_pos hE, if_pos hcard] at h
            have hle := fashion_final_le (tokensOf p) (tokensOf e)
              (fun w => synHit (pyLower p) w = true) hcard
            have hge : (1 : ℚ) ≤
                ((tokensOf p ∩ tokensOf e).card : ℚ) / ((tokensOf e).card : ℚ) * (7 / 10) +
                (((tokensOf e).filter fun w => w ∉ tokensOf p ∧
                  synHit (pyLower p) w = true).card : ℚ) /
                  ((tokensOf e).card : ℚ) * (3 / 10) := min_eq_right_iff.mp h
            linarith
  · intro p e t h
    unfold partial_match at h
    dsimp only at h
    by_cases hg : p = "" ∨ e = ""
    · rw [if_pos hg] at h
      exact absurd h (by norm_num)
    · rw [if_neg hg] at h
      by_cases hE : tokensOf e = ∅
      · rw [if_pos hE] at h
        exact absurd h (by norm_num)
      · rw [if_neg hE] at h
        have huni : tokensOf p ∪ tokensOf e ≠ ∅ := fun hc =>
          hE (Finset.union_eq_empty.mp hc).2
        rw [if_pos huni] at h
        have hj1 := card_div_le_one (tokensOf p ∩ tokensOf e)
          (tokensOf p ∪ tokensOf e) Finset.inter_subset_union huni
        have hr1 := card_div_le_one (tokensOf p ∩ tokensOf e)
          (tokensOf e) Finset.inter_subset_right hE
        have hj0 := card_div_nonneg (tokensOf p ∩ tokensOf e) (tokensOf p ∪ tokensOf e)
        have hr0 := card_div_nonneg (tokensOf p ∩ tokensOf e) (tokensOf e)
        have hj : ((tokensOf p ∩ tokensOf e).card : ℚ) /
            ((tokensOf p ∪ tokensOf e).card : ℚ) = 1 := by linarith
        have hr : ((tokensOf p ∩ tokensOf e).card : ℚ) / ((tokensOf e).card : ℚ) = 1 := by
          linarith
        have hEne : ((tokensOf e).card : ℚ) ≠ 0 := by
          exact_mod_cast (Finset.card_pos.mpr (Finset.nonempty_iff_ne_empty.mpr hE)).ne'
        have hUne : ((tokensOf p ∪ tokensOf e).card : ℚ) ≠ 0 := by
          exact_mod_cast (Finset.card_pos.mpr (Finset.nonempty_iff_ne_empty.mpr huni)).ne'
        have hIE : (tokensOf p ∩ tokensOf e).card = (tokensOf e).card := by
          exact_mod_cast (div_eq_one_iff_eq hEne).mp hr
        have hIU : (tokensOf p ∩ tokensOf e).card = (tokensOf p ∪ tokensOf e).card := by
          exact_mod_cast (div_eq_one_iff_eq hUne).mp hj
        have hIeqU : tokensOf p ∩ tokensOf e = tokensOf p ∪ tokensOf e :=
          Finset.eq_of_subset_of_card_le Finset.inter_subset_union (le_of_eq hIU.symm)
        have hPE : tokensOf p = tokensOf e := by
          apply Finset.Subset.antisymm
          · intro x hx
            have hxu : x ∈ tokensOf p ∪ tokensOf e := Finset.mem_union_left _ hx
            rw [← hIeqU] at hxu
            exact (Finset.mem_inter.mp hxu).2
          · intro x hx
            have hxu : x ∈ tokensOf p ∪ tokensOf e := Finset.mem_union_right _ hx
            rw [← hIeqU] at hxu
            exact (Finset.mem_inter.mp hxu).1
        exact ⟨hPE, hE⟩
  · intro lp le h
    unfold list_overlap_score at h
    dsimp only at h
    by_cases hle : le.isEmpty
    · rw [if_pos hle] at h
      exact absurd h (by norm_num)
    · rw [if_neg hle] at h
      by_cases hlp : lp.isEmpty
      · rw [if_pos hlp] at h
        exact absurd h (by norm_num)
      · rw [if_neg hlp] at h
        have hlpne : lp ≠ [] := by simpa using hlp
        have hlene : le ≠ [] := by simpa using hle
        have hPne := itemSet_ne_empty lp hlpne
        have hEne := itemSet_ne_empty le hlene
        rw [if_pos hPne, if_pos hEne] at h
        by_cases hz : ((itemSet lp ∩ itemSet le).card : ℚ) / ((itemSet lp).card : ℚ) +
            ((itemSet lp ∩ itemSet le).card : ℚ) / ((itemSet le).card : ℚ) = 0
        · rw [if_pos hz] at h
          exact absurd h (by norm_num)
        · rw [if_neg hz] at h
          have hP1 := card_div_le_one (itemSet lp ∩ itemSet le) (itemSet lp)
            Finset.inter_subset_left hPne
          have hR1 := card_div_le_one (itemSet lp ∩ itemSet le) (itemSet le)
            Finset.inter_subset_right hEne
          have hP0 := card_div_nonneg (itemSet lp ∩ itemSet le) (itemSet lp)
          have hR0 := card_div_nonneg (itemSet lp ∩ itemSet le) (itemSet le)
          have hPR := f1_eq_one _ _ hP0 hP1 hR0 hR1 hz h
          have hPcne : ((itemSet lp).card : ℚ) ≠ 0 := by
            exact_mod_cast (Finset.card_pos.mpr
              (Finset.nonempty_iff_ne_empty.mpr hPne)).ne'
          have hEcne : ((itemSet le).card : ℚ) ≠ 0 := by
            exact_mod_cast (Finset.card_pos.mpr
              (Finset.nonempty_iff_ne_empty.mpr hEne)).ne'
          have hIP : (itemSet lp ∩ itemSet le).card = (itemSet lp).card := by
            exact_mod_cast (div_eq_one_iff_eq hPcne).mp hPR.1
          have hIR : (itemSet lp ∩ itemSet le).card = (itemSet le).card := by
            exact_mod_cast (div_eq_one_iff_eq hEcne).mp hPR.2
          have hIeqP : itemSet lp ∩ itemSet le = itemSet lp :=
            Finset.eq_of_subset_of_card_le Finset.inter_subset_left (le_of_eq hIP.symm)
          have hIeqR : itemSet lp ∩ itemSet le = itemSet le :=
            Finset.eq_of_subset_of_card_le Finset.inter_subset_right (le_of_eq hIR.symm)
          exact ⟨hIeqP ▸ hIeqR, hEne⟩

/-- C2 witness: the invariants applied at concrete inputs — empty guards; a
trimmed case-insensitive pair recovered from `exact_match = 1`; equal token
sets recovered from `partial_match = 1` on reordered words. -/
theorem claim2_return_value_invariants_witness :
    exact_match "" "x" = 0 ∧ list_overlap_score [] ["a"] = 0 ∧
    pyLower (pyStrip " Chic ") = pyLower (pyStrip "chic") ∧
    tokensOf "dress red" = tokensOf "red dress" := by
  refine ⟨(claim2_return_value_invariants.1 "" "x" 0 (Or.inl rfl)).1,
    claim2_return_value_invariants.2.1 [] ["a"] (Or.inl rfl),
    (claim2_return_value_invariants.2.2.1 " Chic " "chic" ?_).2.2,
    (claim2_return_value_invariants.2.2.2.2.1 "dress red" "red dress" 0 ?_).1⟩
  · unfold exact_match
    rw [if_neg (by decide), if_pos (by decide)]
  · unfold partial_match
    dsimp only
    rw [if_neg (by decide), if_neg (by decide), if_pos (by decide)]
    rw [show (tokensOf "dress red" ∩ tokensOf "red dress").card = 2 from rfl,
      show (tokensOf "dress red" ∪ tokensOf "red dress").card = 2 from rfl,
      show (tokensOf "red dress").card = 2 from rfl]
    norm_num

/-- C1 counterexample: with score values in [0,1] and nonnegative weights,
`weighted_score` can still return 2.0 — a score name ("b") absent from the
provided weights mapping contributes `score × 1.0` to the numerator but
nothing to the denominator, so the result escapes [0,1]. -/
theorem claim1_counterexample :
    (∀ kv ∈ [("a", (1 : ℚ)), ("b", (1 : ℚ))], 0 ≤ kv.2 ∧ kv.2 ≤ 1) ∧
    (∀ kv ∈ [("a", (1 : ℚ))], 0 ≤ kv.2) ∧
    weighted_score [("a", 1), ("b", 1)] (some [("a", 1)]) = 2 ∧
    ¬ weighted_score [("a", 1), ("b", 1)] (some [("a", 1)]) ≤ 1 := by
  have hval : weighted_score [("a", (1 : ℚ)), ("b", 1)] (some [("a", 1)]) = 2 := by
    norm_num [weighted_score, dictGet, List.find?,
      show (("a" : String) == "b") = false from rfl,
      show (("a" : String) == "a") = true from rfl]
  refine ⟨?_, ?_, hval, by rw [hval]; norm_num⟩
  · intro kv hkv
    simp only [List.mem_cons, List.not_mem_nil, or_false] at hkv
    rcases hkv with rfl | rfl <;> norm_num
  · intro kv hkv
    simp only [List.mem_cons, List.not_mem_nil, or_false] at hkv
    rcases hkv with rfl <;> norm_num

/-- C1 amended: with score values in [0,1], nonnegative weights, distinct
dictionary keys, and — when a weights mapping is provided — every score name
present in it, every public scoring quantity (`exact_match`, `partial_match`,
`fashion_similarity`, `list_overlap_score`, `weighted_score`, and the
`accuracy` and `avg_score` fields of `calculate_accuracy`) lies in [0, 1]. -/
theorem claim1_scores_in_unit_interval (p e : String) (t : ℚ)
    (lp le : List String)
    (scores : List (String × ℚ)) (weights : Option (List (String × ℚ)))
    (results : List (Option ℚ)) (thr : ℚ)
    (hs : ∀ kv ∈ scores, 0 ≤ kv.2 ∧ kv.2 ≤ 1)
    (hnds : (scores.map Prod.fst).Nodup)
    (hw : ∀ w, weights = some w → (∀ kv ∈ w, 0 ≤ kv.2) ∧
      (w.map Prod.fst).Nodup ∧ ∀ k ∈ scores.map Prod.fst, k ∈ w.map Prod.fst)
    (hres : ∀ r ∈ results, ∀ q, r = some q → 0 ≤ q ∧ q ≤ 1) :
    (0 ≤ exact_match p e ∧ exact_match p e ≤ 1) ∧
    (0 ≤ partial_match p e t ∧ partial_match p e t ≤ 1) ∧
    (0 ≤ fashion_similarity p e ∧ fashion_similarity p e ≤ 1) ∧
    (0 ≤ list_overlap_score lp le ∧ list_overlap_score lp le ≤ 1) ∧
    (0 ≤ weighted_score scores weights ∧ weighted_score scores weights ≤ 1) ∧
    (0 ≤ (calculate_accuracy results thr).accuracy ∧
      (calculate_accuracy results thr).accuracy ≤ 1) ∧
    (0 ≤ (calculate_accuracy results thr).avg_score ∧
      (calculate_accuracy results thr).avg_score ≤ 1) :=
  ⟨exact_match_bounds p e, partial_match_bounds p e t,
    fashion_similarity_bounds p e, list_overlap_score_bounds lp le,
    weighted_score_bounds scores weights hs hnds hw,
    (calculate_accuracy_bounds results thr hres).1,
    (calculate_accuracy_bounds results thr hres).2⟩

/-- C1 witness: the amended bound applied at concrete inputs, including a
provided weights mapping covering every score name and a record list with a
missing score field. -/
theorem claim1_scores_in_unit_interval_witness :
    (0 ≤ weighted_score [("a", 1 / 2), ("b", 1)] (some [("a", 2), ("b", 0)]) ∧
      weighted_score [("a", 1 / 2), ("b", 1)] (some [("a", 2), ("b", 0)]) ≤ 1) ∧
    (0 ≤ (calculate_accuracy [some (1 / 2), none] (7 / 10)).avg_score ∧
      (calculate_accuracy [some (1 / 2), none] (7 / 10)).avg_score ≤ 1) ∧
    (0 ≤ fashion_similarity "luxury style" "high-end style" ∧
      fashion_similarity "luxury style" "high-end style" ≤ 1) := by
  have h := claim1_scores_in_unit_interval "luxury style" "high-end style" 0
    ["x"] ["y"] [("a", 1 / 2), ("b", 1)] (some [("a", 2), ("b", 0)])
    [some (1 / 2), none] (7 / 10)
    (by
      intro kv hkv
      simp only [List.mem_cons, List.not_mem_nil, or_false] at hkv
      rcases hkv with rfl | rfl <;> norm_num)
    (by decide)
    (by
      intro w hweq
      injection hweq with hw2
      subst hw2
      refine ⟨?_, by decide, by decide⟩
      intro kv hkv
      simp only [List.mem_cons, List.not_mem_nil, or_false] at hkv
      rcases hkv with rfl | rfl <;> norm_num)
    (by
      intro r hr q hq
      simp only [List.mem_cons, List.not_mem_nil, or_false] at hr
      rcases hr with rfl | rfl
      · injection hq with h2
        subst h2
        norm_num
      · exact absurd hq (by simp))
  exact ⟨h.2.2.2.2.1, h.2.2.2.2.2.2, h.2.2.1⟩

end FashionBench

